import Mathlib

/-
Shallow embedding of `stonk.py` (StonkBot, a simulated stock-market game).

Modelling conventions:
* SQL `REAL` columns (balances, stock prices) are modelled as `ℚ`;
  SQL `INTEGER` columns (user ids, quantities, availability) as `ℕ`/`ℤ`.
* Random draws (`random.uniform`, `random.gauss`) are explicit parameters.
* `sqlite3` tables are association lists; `fetchone` is `List.find?`
  (first matching row), `UPDATE ... WHERE` is a `List.map` over matching
  rows, `DELETE ... WHERE` is a `List.filter`, `INSERT` appends a row.
* A command handler that replies with an error message and returns without
  touching the database is modelled as returning `none`; a committed
  mutation returns `some` of the new ledger state.
-/

/-- Python `round` (round half to even, as applied to the exact value;
float rounding error is not modelled). -/
def pyRound (x : ℚ) : ℤ :=
  let f := ⌊x⌋
  if x - f < 1/2 then f
  else if 1/2 < x - f then f + 1
  else if Even f then f else f + 1

/-- `check_gamertag`: `re.fullmatch(r'[a-z0-9]+', gamertag) and len(gamertag) <= 11`,
with empty/`None` rejected first. -/
def check_gamertag (gamertag : String) : Bool :=
  !gamertag.isEmpty &&
  gamertag.data.all (fun c => ('a' ≤ c && c ≤ 'z') || ('0' ≤ c && c ≤ '9')) &&
  gamertag.length ≤ 11

/-- the character class of `clean_string`'s regex `[^a-zA-Z0-9]` (kept chars). -/
def isAlnumAscii (c : Char) : Bool :=
  ('a' ≤ c && c ≤ 'z') || ('A' ≤ c && c ≤ 'Z') || ('0' ≤ c && c ≤ '9')

/-- `clean_string`: removes everything other than `a-zA-Z0-9`. -/
def clean_string (s : String) : String :=
  ⟨s.data.filter isAlnumAscii⟩

/-- Python `str.upper()` (only ASCII matters here: the strings it is applied
to are already stripped to alphanumerics). -/
def upperString (s : String) : String :=
  ⟨s.data.map Char.toUpper⟩

/-- `get_emoji_name`: `full_emoji_str.split(':')[1]` for strings of the form
`<a?:emoji_name:emoji_id>`: the characters between the first and the second
colon (a colon-free string, on which Python would raise, gives `""`). -/
def get_emoji_name (full_emoji_str : String) : String :=
  ⟨((full_emoji_str.data.dropWhile (· ≠ ':')).drop 1).takeWhile (· ≠ ':')⟩

/-- `get_stock_decay_value`: `old_value * (1 + u)`, where `u` is the inline
draw `random.uniform(-0.025, -0.015)`, made an explicit parameter. -/
def get_stock_decay_value (old_value : ℚ) (u : ℚ) : ℚ :=
  old_value * (1 + u)

/-- `get_increase_stock_value`: `total_messages` sequential passes of the
marginal price ladder, each evaluated at the already-updated price. -/
def get_increase_stock_value (current_price : ℚ) : (total_messages : ℕ) → ℚ
  | 0 => current_price
  | n + 1 =>
    get_increase_stock_value
      (if current_price < 100 then current_price + 1.0
       else if current_price < 200 then current_price + 0.8
       else if current_price < 300 then current_price + 0.5
       else if current_price < 400 then current_price + 0.2
       else if current_price < 500 then current_price + 0.1
       else current_price + 0.05) n

/-- One step of the spec's marginal-price ladder (`+1.00` while price `< 100`,
`+0.80` while `< 200`, `+0.50` while `< 300`, `+0.20` while `< 400`,
`+0.10` while `< 500`, `+0.05` otherwise), written from the spec's words for
comparison with `get_increase_stock_value`. -/
def ladderStep (price : ℚ) : ℚ :=
  if price < 100 then price + 1.0
  else if price < 200 then price + 0.8
  else if price < 300 then price + 0.5
  else if price < 400 then price + 0.2
  else if price < 500 then price + 0.1
  else price + 0.05

/-- `get_initial_stock_value`: seed price from a 120-hour activity count.
`draws i` is the `random.uniform(-0.025, -0.015)` sample consumed by the
`i`-th decay step of the simulation loop. -/
def get_initial_stock_value (activity_count : ℕ) (draws : ℕ → ℚ) : ℚ :=
  if activity_count < 5 then 0
  else if 120 < activity_count then
    let average_per_hour := pyRound ((activity_count : ℚ) / 120)
    (List.range 120).foldl
      (fun price i =>
        get_increase_stock_value (get_stock_decay_value price (draws i))
          average_per_hour.toNat)
      4.20
  else 4.20

/-- The initial-price seed as the claim states it: `0` below 5, flat `4.20`
for `5 ≤ c ≤ 120`, otherwise 120 rounds of one decay step followed by
`avg` ladder-increase steps starting from `4.20`. Written from the spec's
words for comparison with `get_initial_stock_value`. -/
def seedSpec (activity_count : ℕ) (draws : ℕ → ℚ) : ℚ :=
  if activity_count < 5 then 0
  else if activity_count ≤ 120 then 4.20
  else
    let avg := pyRound ((activity_count : ℚ) / 120)
    (List.range 120).foldl
      (fun price i => ladderStep^[avg.toNat] (price * (1 + draws i)))
      4.20

/-- The per-cycle availability adjustment performed inside
`avail_based_price_adjustment_all_stocks` for one stock:
`gap = 25000 - stock_avail`, `r = max(0, random.gauss(0.05, 0.025))`,
`new_avail = round(stock_avail + gap*r + random.uniform(0, 25))`.
The raw gaussian sample `g` and the uniform jitter are explicit parameters. -/
def avail_adjustment (stock_avail : ℤ) (g jitter : ℚ) : ℤ :=
  let gap : ℚ := 25000 - (stock_avail : ℚ)
  let r : ℚ := max 0 g
  pyRound ((stock_avail : ℚ) + gap * r + jitter)

/-
### Ticker allocation (`create_ticker_name`, `_iterate_possible_ticker_names`)

The already-allocated set is the key set of `self.ticker_to_name`, modelled
as a `List String` (membership only). `pfx` is the one-character category
tag the source calls the ticker's prefix.
-/

/-- The index tuples `(i, j, k, l, m)` with `i < j < k < l < m < n`, in the
order the five nested `for` loops of `_iterate_possible_ticker_names` visit
them (lexicographic on the tuple). -/
def tuple5 (n : ℕ) : List (ℕ × ℕ × ℕ × ℕ × ℕ) :=
  (List.range n).flatMap fun i =>
    (List.range n).flatMap fun j =>
      (List.range n).flatMap fun k =>
        (List.range n).flatMap fun l =>
          (List.range n).filterMap fun m =>
            if i < j ∧ j < k ∧ k < l ∧ l < m then some (i, j, k, l, m) else none

/-- The candidate `prefix + s[i] + s[j] + s[k] + s[l] + s[m]` formed for one
index tuple (indices produced by `tuple5` are always in range; `getD` keeps
the function total). -/
def tickerCandidate (pfx : String) (s : List Char) : ℕ × ℕ × ℕ × ℕ × ℕ → String
  | (i, j, k, l, m) =>
    pfx ++ ⟨[s.getD i 'A', s.getD j 'A', s.getD k 'A', s.getD l 'A', s.getD m 'A']⟩

/-- All candidates `_iterate_possible_ticker_names` builds from `s`, in visit
order. -/
def tickerCandidates (pfx : String) (s : String) : List String :=
  (tuple5 s.length).map (tickerCandidate pfx s.data)

/-- `_iterate_possible_ticker_names`: the first candidate (in nested-loop
order) whose name is not already a key of `ticker_to_name`. -/
def iterate_possible_ticker_names (pfx s : String) (allocated : List String) :
    Option String :=
  (tickerCandidates pfx s).find? fun r => !(allocated.contains r)

/-- The 5-letter suffixes `"AAAAA"`, `"AAAAB"`, …, `"ZZZZZ"` in the order the
five nested loops of `create_ticker_name` generate them. -/
def tickerSuffixes : List String :=
  (List.range 26).flatMap fun i =>
    (List.range 26).flatMap fun j =>
      (List.range 26).flatMap fun k =>
        (List.range 26).flatMap fun l =>
          (List.range 26).map fun m =>
            ⟨[Char.ofNat (65 + i), Char.ofNat (65 + j), Char.ofNat (65 + k),
              Char.ofNat (65 + l), Char.ofNat (65 + m)]⟩

/-- `create_ticker_name`: `some "ERROR_TICKER_CREATION"` for falsy/ill-sized
inputs, else the phase-1 subsequence search on the cleaned uppercased name
(only when it has length ≥ 5), else the suffix-extended search; `none` when
the whole suffix enumeration fails. -/
def create_ticker_name (pfx fullname : String) (allocated : List String) :
    Option String :=
  if pfx = "" ∨ fullname = "" ∨ pfx.length ≠ 1 then some "ERROR_TICKER_CREATION"
  else
    let s := upperString (clean_string fullname)
    match (if 5 ≤ s.length then iterate_possible_ticker_names pfx s allocated
           else none) with
    | some r => some r
    | none =>
      tickerSuffixes.findSome? fun suffix =>
        iterate_possible_ticker_names pfx (s ++ suffix) allocated

/-- The claim's enumeration of candidates: all subsequence candidates of the
cleaned uppercased name first, then, suffix by suffix in order
`AAAAA..ZZZZZ`, the subsequence candidates of the suffix-extended name.
Written from the spec's words for comparison with `create_ticker_name`. -/
def tickerEnumeration (pfx fullname : String) : List String :=
  let s := upperString (clean_string fullname)
  tickerCandidates pfx s ++
    tickerSuffixes.flatMap fun suffix => tickerCandidates pfx (s ++ suffix)

/-
### Ledger state (`create_db` tables) and row primitives

`users(user_id, gamertag, balance)`, `stock_holdings(user_id, stock_name,
quantity)`, `stocks(stock_name, stock_value, stock_avail)`.  The `metadata`
table does not participate in any claim.
-/

structure Ledger where
  users : List (ℕ × String × ℚ)
  stock_holdings : List (ℕ × String × ℤ)
  stocks : List (String × ℚ × ℤ)
  deriving DecidableEq

/-- `SELECT gamertag, balance FROM users WHERE user_id = ?` + `fetchone`. -/
def findUser (L : Ledger) (user_id : ℕ) : Option (String × ℚ) :=
  (L.users.find? fun u => u.1 == user_id).map (·.2)

/-- `SELECT user_id FROM users WHERE gamertag = ?` + `fetchone`. -/
def findUserByTag (L : Ledger) (gamertag : String) : Option ℕ :=
  (L.users.find? fun u => u.2.1 == gamertag).map (·.1)

/-- `SELECT stock_value, stock_avail FROM stocks WHERE stock_name = ?`. -/
def findStock (L : Ledger) (stock_name : String) : Option (ℚ × ℤ) :=
  (L.stocks.find? fun s => s.1 == stock_name).map (·.2)

/-- `SELECT quantity FROM stock_holdings WHERE user_id = ? AND stock_name = ?`
on a bare holdings table. -/
def findHoldingIn (hs : List (ℕ × String × ℤ)) (user_id : ℕ)
    (stock_name : String) : Option ℤ :=
  (hs.find? fun h => h.1 == user_id && h.2.1 == stock_name).map (·.2.2)

/-- Same lookup on a whole ledger. -/
def findHolding (L : Ledger) (user_id : ℕ) (stock_name : String) : Option ℤ :=
  findHoldingIn L.stock_holdings user_id stock_name

/-- The quantity a user holds of a stock, `0` when there is no row. -/
def holdingQty (L : Ledger) (user_id : ℕ) (stock_name : String) : ℤ :=
  (findHolding L user_id stock_name).getD 0

/-- `UPDATE users SET balance = ? WHERE user_id = ?`. -/
def updateBalance (us : List (ℕ × String × ℚ)) (user_id : ℕ) (b : ℚ) :
    List (ℕ × String × ℚ) :=
  us.map fun u => if u.1 == user_id then (u.1, u.2.1, b) else u

/-- `UPDATE stock_holdings SET quantity = ? WHERE user_id = ? AND stock_name = ?`. -/
def updateHolding (hs : List (ℕ × String × ℤ)) (user_id : ℕ)
    (stock_name : String) (q : ℤ) : List (ℕ × String × ℤ) :=
  hs.map fun h => if h.1 == user_id && h.2.1 == stock_name
    then (h.1, h.2.1, q) else h

/-- `DELETE FROM stock_holdings WHERE user_id = ? AND stock_name = ?`. -/
def deleteHolding (hs : List (ℕ × String × ℤ)) (user_id : ℕ)
    (stock_name : String) : List (ℕ × String × ℤ) :=
  hs.filter fun h => !(h.1 == user_id && h.2.1 == stock_name)

/-- `UPDATE stocks SET stock_avail = ? WHERE stock_name = ?`. -/
def updateStockAvail (ss : List (String × ℚ × ℤ)) (stock_name : String)
    (a : ℤ) : List (String × ℚ × ℤ) :=
  ss.map fun s => if s.1 == stock_name then (s.1, s.2.1, a) else s

/-- `UPDATE stocks SET stock_avail = stock_avail + ? WHERE stock_name = ?`
(the relative form used by `sell_stock`). -/
def addStockAvail (ss : List (String × ℚ × ℤ)) (stock_name : String)
    (dq : ℤ) : List (String × ℚ × ℤ) :=
  ss.map fun s => if s.1 == stock_name then (s.1, s.2.1, s.2.2 + dq) else s

/-
### Commands (`StonkCog`)
-/

/-- `register`: already-registered check on `user_id`, then the gamertag
validity checks, then `INSERT INTO users ... balance = 100000.0`.  There is
no check that the gamertag is free and the schema puts no UNIQUE
constraint on `users.gamertag`. `gamertag = none` models a call without the
argument. -/
def register (L : Ledger) (user_id : ℕ) (gamertag : Option String) :
    Option Ledger :=
  if (findUser L user_id).isSome then none
  else match gamertag with
    | none => none
    | some g =>
      if g = "" then none
      else if !check_gamertag g then none
      else some { L with users := L.users ++ [(user_id, g, 100000.0)] }

/-- `buy_stock`: registration, stock existence, quantity, availability,
price and balance checks in source order; on success debits the balance,
upserts the holding and writes back `stock_avail - quantity`. -/
def buy_stock (L : Ledger) (user_id : ℕ) (quantity : ℤ) (stock_name : String) :
    Option Ledger :=
  if (findUser L user_id).isNone then none
  else
    let sn := upperString stock_name
    match findStock L sn with
    | none => none
    | some (stock_price, stock_avail) =>
      if quantity ≤ 0 then none
      else if stock_avail < quantity then none
      else if stock_price ≤ 0 then none
      else
        match findUser L user_id with
        | none => none
        | some (_, balance) =>
          let total_cost := stock_price * (quantity : ℚ)
          if balance < total_cost then none
          else
            let holdings' :=
              match findHolding L user_id sn with
              | some q => updateHolding L.stock_holdings user_id sn (q + quantity)
              | none => L.stock_holdings ++ [(user_id, sn, quantity)]
            some { users := updateBalance L.users user_id (balance - total_cost)
                   stock_holdings := holdings'
                   stocks := updateStockAvail L.stocks sn (stock_avail - quantity) }

/-- `sell_stock`: registration, stock existence and held-quantity checks in
source order (note: no `quantity <= 0` check); on success deletes the
holding exactly when it reaches 0, credits `stock_price * quantity` and
increments `stock_avail` by `quantity`. -/
def sell_stock (L : Ledger) (user_id : ℕ) (quantity : ℤ) (stock_name : String) :
    Option Ledger :=
  if (findUser L user_id).isNone then none
  else
    let sn := upperString stock_name
    match findStock L sn with
    | none => none
    | some (stock_price, _) =>
      let total_sale := stock_price * (quantity : ℚ)
      match findHolding L user_id sn with
      | none => none
      | some held =>
        if held < quantity then none
        else
          let holdings' :=
            if held - quantity = 0 then deleteHolding L.stock_holdings user_id sn
            else updateHolding L.stock_holdings user_id sn (held - quantity)
          match findUser L user_id with
          | none => none
          | some (_, balance) =>
            some { users := updateBalance L.users user_id (balance + total_sale)
                   stock_holdings := holdings'
                   stocks := addStockAvail L.stocks sn quantity }

/-- `givestocks`: the usage check rejects a falsy amount or missing
arguments (`""` models a missing/empty string; the literal `to` word of the
command is not modelled), then `amount <= 0`, target lookup by gamertag and
held-quantity checks; on success the giver's row is set to
`quantity - amount` (never deleted, even at 0) and the target's row is
upserted — the target lookup runs after the giver's update, as in the
source. -/
def givestocks (L : Ledger) (giver_id : ℕ) (amount : ℤ)
    (stock_name to_gamertag : String) : Option Ledger :=
  if amount = 0 ∨ stock_name = "" ∨ to_gamertag = "" then none
  else if amount ≤ 0 then none
  else
    match findUserByTag L to_gamertag with
    | none => none
    | some target_id =>
      match findHolding L giver_id stock_name with
      | none => none
      | some held =>
        if held < amount then none
        else
          let holdings1 := updateHolding L.stock_holdings giver_id stock_name
            (held - amount)
          let holdings2 :=
            match findHoldingIn holdings1 target_id stock_name with
            | none => holdings1 ++ [(target_id, stock_name, amount)]
            | some tq => updateHolding holdings1 target_id stock_name (tq + amount)
          some { L with stock_holdings := holdings2 }

/-- `calculate_net_worth`: balance plus the value of each holding whose
stock row exists; `none` models the `TypeError` the source raises on
`result[0]` when the user row is missing. -/
def calculate_net_worth (L : Ledger) (user_id : ℕ) : Option ℚ :=
  match findUser L user_id with
  | none => none
  | some (_, balance) =>
    some ((L.stock_holdings.filter fun h => h.1 == user_id).foldl
      (fun net_worth h =>
        match findStock L h.2.1 with
        | some (stock_price, _) => net_worth + stock_price * (h.2.2 : ℚ)
        | none => net_worth)
      balance)

/-
### Startup initialization (`initialize_stocks`)

Only the rows inserted into `stocks` matter to the claims.  Channels are
processed first (category tag `"C"`, name = channel name), then the sorted
emoji list (tag `"E"`, name = `get_emoji_name emoji`).  `counts` is the
relevant `Counter` of `count_all_occurences_in_server` (missing key = 0,
as for a Python `Counter`).  `draws i` is the decay-draw sequence consumed
by the `i`-th processed name's `get_initial_stock_value` call.  The in-memory
`ticker_to_name` map is threaded through as its key list `keys`; a key is
recorded for every processed name (also for skipped, already-existing
stocks), exactly as in the source.
-/

/-- One loop iteration of `initialize_stocks` over a `(tag, name, count)`
triple: allocate a ticker against the current `ticker_to_name` keys, record
it, skip the insert when the ticker is already in the `stocks` table,
otherwise insert `(ticker, initial value, 10000)`. -/
def initializeStep (existing : List String) (draws : ℕ → ℕ → ℚ)
    (st : ℕ × List String × List (Option String × ℚ × ℤ)) :
    String × String × ℕ → ℕ × List String × List (Option String × ℚ × ℤ)
  | (tag, name, count) =>
    let (idx, keys, inserted) := st
    let ticker := create_ticker_name tag name keys
    let keys' := match ticker with
      | some t => t :: keys
      | none => keys
    let skip := match ticker with
      | some t => existing.contains t
      | none => false
    let inserted' :=
      if skip then inserted
      else inserted ++ [(ticker, get_initial_stock_value count (draws idx), 10000)]
    (idx + 1, keys', inserted')

/-- `initialize_stocks`: the list of `(stock_name, stock_value, stock_avail)`
rows inserted into the `stocks` table, given the stocks already present,
the guild's channel names in order, the sorted emoji list and the activity
counts. -/
def initialize_stocks (existing : List String) (channels : List String)
    (channelCounts : String → ℕ) (emojis : List String)
    (emojiCounts : String → ℕ) (draws : ℕ → ℕ → ℚ) :
    List (Option String × ℚ × ℤ) :=
  let items :=
    (channels.map fun ch => ("C", ch, channelCounts ch)) ++
      (emojis.map fun e => ("E", get_emoji_name e, emojiCounts e))
  (items.foldl (initializeStep existing draws) (0, [], [])).2.2

/-
### Derived predicates and concrete instances used to evaluate the model
-/

/-- The conjunction of `buy_stock`'s precondition checks, in source order:
registered user, existing stock, positive quantity, sufficient
availability, positive price, sufficient balance. -/
def buyPre (L : Ledger) (user_id : ℕ) (quantity : ℤ) (stock_name : String) :
    Bool :=
  match findUser L user_id with
  | none => false
  | some (_, balance) =>
    match findStock L (upperString stock_name) with
    | none => false
    | some (stock_price, stock_avail) =>
      decide (0 < quantity) && decide (quantity ≤ stock_avail) &&
      decide (0 < stock_price) &&
      decide (stock_price * (quantity : ℚ) ≤ balance)

/-- the constant admissible decay draw used to instantiate C8. -/
def constDraws : ℕ → ℚ := fun _ => -0.02

/-- a one-user, one-stock ledger: alice is registered with the fresh
balance 100000.0 and stock CGENER trades at 10 with 5000 available. -/
def sampleLedger : Ledger :=
  ⟨[(1, "alice", 100000.0)], [], [("CGENER", 10, 5000)]⟩

/-- the ledger state after `buy_stock sampleLedger 1 100 "cgener"`. -/
def sampleLedgerBought : Ledger :=
  ⟨[(1, "alice", 99000)], [(1, "CGENER", 100)], [("CGENER", 10, 4900)]⟩

/-- a two-user ledger in which alice holds exactly 5 CGENER. -/
def giftLedger : Ledger :=
  ⟨[(1, "alice", 100), (2, "bob", 100)], [(1, "CGENER", 5)],
    [("CGENER", 10, 100)]⟩

/-- the ledger state after alice gifts all 5 of her CGENER to bob: her
holding row is still stored, with quantity 0. -/
def giftLedgerAfter : Ledger :=
  ⟨[(1, "alice", 100), (2, "bob", 100)], [(1, "CGENER", 0), (2, "CGENER", 5)],
    [("CGENER", 10, 100)]⟩

/-
### Helper lemmas
-/

/-- The source's increase loop is the `n`-fold iterate of the spec's ladder
step. -/
lemma get_increase_stock_value_eq_iterate (p : ℚ) (n : ℕ) :
    get_increase_stock_value p n = ladderStep^[n] p := by
  induction n generalizing p with
  | zero => rfl
  | succ n ih =>
    rw [Function.iterate_succ_apply]
    exact ih (ladderStep p)

/-- Python rounding never goes below the floor. -/
lemma floor_le_pyRound (x : ℚ) : ⌊x⌋ ≤ pyRound x := by
  simp only [pyRound]
  split_ifs <;> omega

/-
### C7
-/

set_option maxRecDepth 100000

/-- C7: the activity-based price increase equals `n` sequential marginal
ladder steps, each evaluated at the already-updated price; in particular
150 messages starting from price 95 give the 150-step simulation's result
(which is exactly 210). -/
theorem C7_increase_is_sequential_ladder :
    (∀ (p : ℚ) (n : ℕ), get_increase_stock_value p n = ladderStep^[n] p) ∧
    get_increase_stock_value 95 150 = ladderStep^[150] 95 ∧
    get_increase_stock_value 95 150 = 210 := by
  refine ⟨get_increase_stock_value_eq_iterate,
    get_increase_stock_value_eq_iterate 95 150, ?_⟩
  rw [get_increase_stock_value_eq_iterate]
  have h1 : ladderStep^[50] (95 : ℚ) = 136 := by with_unfolding_all rfl
  have h2 : ladderStep^[50] (136 : ℚ) = 176 := by with_unfolding_all rfl
  have h3 : ladderStep^[50] (176 : ℚ) = 210 := by with_unfolding_all rfl
  rw [show (150 : ℕ) = 100 + 50 from rfl, Function.iterate_add_apply, h1,
    show (100 : ℕ) = 50 + 50 from rfl, Function.iterate_add_apply, h2, h3]

/-
### C8
-/

/-- C8: the initial-price seed returns 0 below 5 units of activity, the flat
4.20 seed for counts between 5 and 120, and otherwise the 120-round
decay-then-`avg`-increases simulation from 4.20, for every sequence of
decay draws in the admissible range. -/
theorem C8_initial_stock_value (activity_count : ℕ) (draws : ℕ → ℚ)
    (hdraws : ∀ i, -0.025 ≤ draws i ∧ draws i ≤ -0.015) :
    get_initial_stock_value activity_count draws = seedSpec activity_count draws := by
  clear hdraws
  simp only [get_initial_stock_value, seedSpec, get_stock_decay_value,
    get_increase_stock_value_eq_iterate]
  split_ifs <;> first | rfl | omega

/-- C8, instantiated at `activity_count = 121` with the constant draw
`-0.02`. -/
theorem C8_initial_stock_value_witness :
    get_initial_stock_value 121 constDraws = seedSpec 121 constDraws :=
  C8_initial_stock_value 121 constDraws
    (fun _ => by constructor <;> norm_num [constDraws])

/-
### C4
-/

/-- C4 counterexample: above the 25000 target the adjustment can decrease
availability — at `stock_avail = 25025` with gaussian sample 2 (so clamped
`r = 2`) and jitter 0, the new availability is 24975 < 25025. -/
theorem C4_counterexample :
    ¬ (∀ (stock_avail : ℤ) (g jitter : ℚ), 0 ≤ jitter → jitter ≤ 25 →
        stock_avail ≤ avail_adjustment stock_avail g jitter) := by
  intro h
  have hle := h 25025 2 0 le_rfl (by norm_num)
  have he : avail_adjustment 25025 2 0 = 24975 := by with_unfolding_all rfl
  rw [he] at hle
  omega

/-- C4 (amended): whenever the current availability is at most the 25000
target, the adjusted availability is ≥ the old one, for every raw gaussian
sample (clamped to ≥ 0 inside) and every jitter in [0, 25]. -/
theorem C4_avail_adjustment_mono (stock_avail : ℤ) (g jitter : ℚ)
    (hj0 : 0 ≤ jitter) (hj25 : jitter ≤ 25) (hcap : stock_avail ≤ 25000) :
    stock_avail ≤ avail_adjustment stock_avail g jitter := by
  unfold avail_adjustment
  have hr : (0 : ℚ) ≤ max 0 g := le_max_left 0 g
  have hgap : (0 : ℚ) ≤ 25000 - (stock_avail : ℚ) := by
    rw [sub_nonneg]
    exact_mod_cast hcap
  have hx : (stock_avail : ℚ) ≤
      (stock_avail : ℚ) + (25000 - (stock_avail : ℚ)) * max 0 g + jitter := by
    nlinarith [mul_nonneg hgap hr]
  calc stock_avail = ⌊(stock_avail : ℚ)⌋ := (Int.floor_intCast stock_avail).symm
    _ ≤ ⌊(stock_avail : ℚ) + (25000 - (stock_avail : ℚ)) * max 0 g + jitter⌋ :=
        Int.floor_le_floor hx
    _ ≤ _ := floor_le_pyRound _

/-- C4 (amended), instantiated at availability 10000, gaussian sample 1/20,
jitter 10. -/
theorem C4_avail_adjustment_mono_witness :
    (0 : ℚ) ≤ 10 ∧ (10 : ℚ) ≤ 25 ∧ (10000 : ℤ) ≤ 25000 ∧
    (10000 : ℤ) ≤ avail_adjustment 10000 (1/20) 10 :=
  ⟨by norm_num, by norm_num, by norm_num,
    C4_avail_adjustment_mono 10000 (1/20) 10 (by norm_num) (by norm_num)
      (by norm_num)⟩

/-
### Ledger lemmas
-/

/-- `find?` commutes with a row update that never changes whether a row
matches the predicate. -/
lemma find?_map_keyfix {α : Type} (f : α → α) (p : α → Bool) (l : List α)
    (hp : ∀ a, p (f a) = p a) : (l.map f).find? p = (l.find? p).map f := by
  induction l with
  | nil => rfl
  | cons a l ih =>
    simp only [List.map_cons, List.find?_cons, hp a]
    cases h : p a <;> simp [h, ih]

/-- `Option.map` with a function that fixes every row matching the search
predicate is invisible to a `find?` result. -/
lemma map_find?_fix {α : Type} (f : α → α) (p : α → Bool) (l : List α)
    (hfix : ∀ a, p a = true → f a = a) : (l.find? p).map f = l.find? p := by
  cases h : l.find? p with
  | none => rfl
  | some a => rw [Option.map_some', hfix a (List.find?_some h)]

/-- `updateBalance` under `findUser`: the looked-up row keeps its gamertag
and gets the new balance. -/
lemma findUser_updateBalance (us : List (ℕ × String × ℚ)) (user_id : ℕ)
    (b : ℚ) (hs : List (ℕ × String × ℤ)) (ss : List (String × ℚ × ℤ))
    (tag : String) (bal : ℚ)
    (h : findUser ⟨us, hs, ss⟩ user_id = some (tag, bal)) :
    findUser ⟨updateBalance us user_id b, hs, ss⟩ user_id = some (tag, b) := by
  simp only [findUser, updateBalance] at *
  rw [find?_map_keyfix]
  · obtain ⟨u, hu, hval⟩ := Option.map_eq_some'.mp h
    have hkey := List.find?_some hu
    rw [hu, Option.map_some', Option.map_some', if_pos hkey,
      congrArg Prod.fst hval]
  · intro a
    by_cases hk : a.1 == user_id
    · rw [if_pos hk]
    · rw [if_neg hk]

/-- `updateStockAvail` under `findStock`: the looked-up row keeps its price
and gets the new availability. -/
lemma findStock_updateStockAvail (ss : List (String × ℚ × ℤ))
    (stock_name : String) (a : ℤ) (us : List (ℕ × String × ℚ))
    (hs : List (ℕ × String × ℤ)) (v : ℚ) (av : ℤ)
    (h : findStock ⟨us, hs, ss⟩ stock_name = some (v, av)) :
    findStock ⟨us, hs, updateStockAvail ss stock_name a⟩ stock_name =
      some (v, a) := by
  simp only [findStock, updateStockAvail] at *
  rw [find?_map_keyfix]
  · obtain ⟨r, hr, hval⟩ := Option.map_eq_some'.mp h
    have hkey := List.find?_some hr
    rw [hr, Option.map_some', Option.map_some', if_pos hkey,
      congrArg Prod.fst hval]
  · intro r
    by_cases hk : r.1 == stock_name
    · rw [if_pos hk]
    · rw [if_neg hk]

/-- `updateHolding` under a same-key `findHoldingIn`: the lookup sees the
new quantity. -/
lemma findHoldingIn_updateHolding (hs : List (ℕ × String × ℤ)) (user_id : ℕ)
    (stock_name : String) (q q0 : ℤ)
    (h : findHoldingIn hs user_id stock_name = some q0) :
    findHoldingIn (updateHolding hs user_id stock_name q) user_id stock_name =
      some q := by
  simp only [findHoldingIn, updateHolding] at *
  rw [find?_map_keyfix]
  · obtain ⟨r, hr, -⟩ := Option.map_eq_some'.mp h
    have hkey := List.find?_some hr
    rw [hr, Option.map_some', if_pos hkey]
    rfl
  · intro a
    by_cases hk : a.1 == user_id && a.2.1 == stock_name
    · rw [if_pos hk]
    · rw [if_neg hk]

/-- `updateHolding` at a different key does not change a lookup. -/
lemma findHoldingIn_updateHolding_ne (hs : List (ℕ × String × ℤ))
    (uid uid' : ℕ) (sn sn' : String) (q : ℤ) (hne : ¬(uid = uid' ∧ sn = sn')) :
    findHoldingIn (updateHolding hs uid' sn' q) uid sn =
      findHoldingIn hs uid sn := by
  simp only [findHoldingIn, updateHolding]
  rw [find?_map_keyfix, map_find?_fix]
  · intro a hpa
    simp only [Bool.and_eq_true, beq_iff_eq] at hpa
    have : (a.1 == uid' && a.2.1 == sn') = false := by
      by_contra hc
      simp only [Bool.not_eq_false, Bool.and_eq_true, beq_iff_eq] at hc
      exact hne ⟨hpa.1 ▸ hc.1, hpa.2 ▸ hc.2⟩
    rw [this]
    rfl
  · intro a
    by_cases hk : a.1 == uid' && a.2.1 == sn'
    · rw [if_pos hk]
    · rw [if_neg hk]

/-- Appending a row for a different user does not change a holding lookup. -/
lemma findHoldingIn_append_ne (hs : List (ℕ × String × ℤ)) (uid uid' : ℕ)
    (sn sn' : String) (q : ℤ) (hne : uid ≠ uid') :
    findHoldingIn (hs ++ [(uid', sn', q)]) uid sn = findHoldingIn hs uid sn := by
  simp only [findHoldingIn, List.find?_append]
  have hnil : List.find? (fun h => h.1 == uid && h.2.1 == sn) [(uid', sn', q)] =
      none := by
    have hfalse : (((uid', sn', q) : ℕ × String × ℤ).1 == uid &&
        ((uid', sn', q) : ℕ × String × ℤ).2.1 == sn) = false := by
      simp only [Bool.and_eq_false_iff, beq_eq_false_iff_ne]
      exact Or.inl (Ne.symm hne)
    simp [List.find?_cons, hfalse]
  rw [hnil, Option.or_none]

/-
### C1
-/

/-- C1: the code does not enforce handle uniqueness — with user 1 registered
under the handle `"alice"`, a registration by the different, unregistered
user 2 with the same handle succeeds and inserts a second `"alice"` row
(with the initial balance 100000.0), instead of failing and leaving the
users table unchanged. -/
theorem C1_register_duplicate_handle :
    register ⟨[(1, "alice", 100000.0)], [], []⟩ 2 (some "alice") =
      some ⟨[(1, "alice", 100000.0), (2, "alice", 100000.0)], [], []⟩ := by
  with_unfolding_all rfl

/-
### C5
-/

/-- C5: `sell_stock` has no `quantity ≤ 0` check — a registered user holding
10 CGENER (price 5, avail 100) who sells quantity −3 is not rejected: the
holding grows to 13, the balance drops by 15 and the availability drops by
3, so ledger state changes. -/
theorem C5_negative_sell_not_rejected :
    sell_stock ⟨[(1, "alice", 1000)], [(1, "CGENER", 10)], [("CGENER", 5, 100)]⟩
        1 (-3) "cgener" =
      some ⟨[(1, "alice", 985)], [(1, "CGENER", 13)], [("CGENER", 5, 97)]⟩ := by
  with_unfolding_all rfl

/-- When a holding is absent, the inserted row is found with its quantity. -/
lemma findHoldingIn_append_self (hs : List (ℕ × String × ℤ)) (uid : ℕ)
    (sn : String) (q : ℤ) (h : findHoldingIn hs uid sn = none) :
    findHoldingIn (hs ++ [(uid, sn, q)]) uid sn = some q := by
  simp only [findHoldingIn] at *
  have hnone : hs.find? (fun h => h.1 == uid && h.2.1 == sn) = none :=
    Option.map_eq_none'.mp h
  rw [List.find?_append, hnone, Option.none_or]
  simp [List.find?_cons]

/-- Forward evaluation of `buy_stock` when every check passes. -/
lemma buy_stock_success (L : Ledger) (user_id : ℕ) (quantity : ℤ)
    (stock_name : String) (tag : String) (bal price : ℚ) (avail : ℤ)
    (hu : findUser L user_id = some (tag, bal))
    (hs : findStock L (upperString stock_name) = some (price, avail))
    (hq : 0 < quantity) (hav : quantity ≤ avail) (hp : 0 < price)
    (hb : price * (quantity : ℚ) ≤ bal) :
    buy_stock L user_id quantity stock_name = some
      ⟨updateBalance L.users user_id (bal - price * (quantity : ℚ)),
       (match findHoldingIn L.stock_holdings user_id (upperString stock_name) with
        | some q0 =>
          updateHolding L.stock_holdings user_id (upperString stock_name)
            (q0 + quantity)
        | none =>
          L.stock_holdings ++ [(user_id, upperString stock_name, quantity)]),
       updateStockAvail L.stocks (upperString stock_name) (avail - quantity)⟩ := by
  simp only [buy_stock, hu, hs, findHolding, Option.isNone_some,
    Bool.false_eq_true, if_false]
  rw [if_neg (by omega : ¬ quantity ≤ 0), if_neg (by omega : ¬ avail < quantity),
    if_neg (not_le.mpr hp), if_neg (not_lt.mpr hb)]

/-
### C2
-/

/-- C2: a `buy` with a registered user, an existing stock, a positive
quantity within availability, a positive price and a sufficient balance
succeeds and yields exactly `available - quantity`, `balance -
price*quantity`, and a holding increased by `quantity` (created if
absent); when any precondition check fails, `buy` returns without any
ledger change. -/
theorem C2_buy_stock (L : Ledger) (user_id : ℕ) (quantity : ℤ)
    (stock_name : String) :
    (∀ tag bal price avail,
      findUser L user_id = some (tag, bal) →
      findStock L (upperString stock_name) = some (price, avail) →
      0 < quantity → quantity ≤ avail → 0 < price →
      price * (quantity : ℚ) ≤ bal →
      (buy_stock L user_id quantity stock_name).isSome = true ∧
      ∀ L', buy_stock L user_id quantity stock_name = some L' →
        findUser L' user_id = some (tag, bal - price * (quantity : ℚ)) ∧
        findStock L' (upperString stock_name) = some (price, avail - quantity) ∧
        holdingQty L' user_id (upperString stock_name) =
          holdingQty L user_id (upperString stock_name) + quantity) ∧
    (buyPre L user_id quantity stock_name = false →
      buy_stock L user_id quantity stock_name = none) := by
  constructor
  · intro tag bal price avail hu hs hq hav hp hb
    have he := buy_stock_success L user_id quantity stock_name tag bal price
      avail hu hs hq hav hp hb
    refine ⟨by rw [he]; rfl, ?_⟩
    intro L' hL'
    rw [he] at hL'
    injection hL' with hL''
    subst hL''
    refine ⟨?_, ?_, ?_⟩
    · exact findUser_updateBalance L.users user_id _ _ _ tag bal hu
    · exact findStock_updateStockAvail L.stocks (upperString stock_name) _
        L.users _ price avail hs
    · cases hh : findHoldingIn L.stock_holdings user_id (upperString stock_name) with
      | some q0 =>
        simp only [holdingQty, findHolding, hh]
        rw [findHoldingIn_updateHolding L.stock_holdings user_id
          (upperString stock_name) (q0 + quantity) q0 hh]
        rfl
      | none =>
        simp only [holdingQty, findHolding, hh]
        rw [findHoldingIn_append_self L.stock_holdings user_id
          (upperString stock_name) quantity hh]
        simp
  · intro hpre
    simp only [buyPre] at hpre
    simp only [buy_stock]
    cases hu : findUser L user_id with
    | none => simp
    | some tb =>
      obtain ⟨tag, bal⟩ := tb
      rw [hu] at hpre
      simp only [Option.isNone_some, Bool.false_eq_true, if_false]
      cases hst : findStock L (upperString stock_name) with
      | none => rfl
      | some pa =>
        obtain ⟨price, avail⟩ := pa
        rw [hst] at hpre
        simp only [hst]
        simp only [Bool.and_eq_false_iff, decide_eq_false_iff_not, not_lt,
          not_le] at hpre
        split_ifs with h1 h2 h3 h4
        · rfl
        · rfl
        · rfl
        · rfl
        · exfalso
          rcases hpre with ((hA | hB) | hC) | hD
          · omega
          · omega
          · exact h3 hC
          · exact h4 hD

/-- C2, instantiated: alice (balance 100000.0) buys 100 CGENER at price 10
from availability 5000, and a zero-quantity buy is rejected. -/
theorem C2_buy_stock_witness :
    findUser sampleLedgerBought 1 =
      some ("alice", 100000.0 - 10 * ((100 : ℤ) : ℚ)) ∧
    findStock sampleLedgerBought (upperString "cgener") =
      some (10, 5000 - 100) ∧
    holdingQty sampleLedgerBought 1 (upperString "cgener") =
      holdingQty sampleLedger 1 (upperString "cgener") + 100 ∧
    buy_stock sampleLedger 1 0 "cgener" = none := by
  have h := (C2_buy_stock sampleLedger 1 100 "cgener").1 "alice" 100000.0 10
    5000 (by with_unfolding_all rfl) (by with_unfolding_all rfl) (by norm_num)
    (by norm_num) (by norm_num) (by push_cast; norm_num)
  have h2 := h.2 sampleLedgerBought (by with_unfolding_all rfl)
  exact ⟨h2.1, h2.2.1, h2.2.2,
    (C2_buy_stock sampleLedger 1 0 "cgener").2 (by with_unfolding_all rfl)⟩

/-- Inversion of a successful `buy_stock`. -/
lemma buy_stock_inv (L : Ledger) (user_id : ℕ) (quantity : ℤ)
    (stock_name : String) (L' : Ledger)
    (h : buy_stock L user_id quantity stock_name = some L') :
    ∃ tag bal price avail,
      findUser L user_id = some (tag, bal) ∧
      findStock L (upperString stock_name) = some (price, avail) ∧
      0 < quantity ∧ quantity ≤ avail ∧ 0 < price ∧
      price * (quantity : ℚ) ≤ bal ∧
      L' = ⟨updateBalance L.users user_id (bal - price * (quantity : ℚ)),
            (match findHoldingIn L.stock_holdings user_id (upperString stock_name) with
             | some q0 =>
               updateHolding L.stock_holdings user_id (upperString stock_name)
                 (q0 + quantity)
             | none =>
               L.stock_holdings ++ [(user_id, upperString stock_name, quantity)]),
            updateStockAvail L.stocks (upperString stock_name)
              (avail - quantity)⟩ := by
  simp only [buy_stock] at h
  cases hu : findUser L user_id with
  | none => rw [hu] at h; simp at h
  | some tb =>
    obtain ⟨tag, bal⟩ := tb
    rw [hu] at h
    simp only [Option.isNone_some, Bool.false_eq_true, if_false] at h
    cases hst : findStock L (upperString stock_name) with
    | none => rw [hst] at h; simp at h
    | some pa =>
      obtain ⟨price, avail⟩ := pa
      simp only [hst] at h
      split_ifs at h with h1 h2 h3 h4
      exact ⟨tag, bal, price, avail, rfl, rfl, by omega, by omega,
        lt_of_not_le h3, le_of_not_lt h4, (Option.some.inj h).symm⟩

/-- Inversion of a successful `sell_stock`. -/
lemma sell_stock_inv (L : Ledger) (user_id : ℕ) (quantity : ℤ)
    (stock_name : String) (L' : Ledger)
    (h : sell_stock L user_id quantity stock_name = some L') :
    ∃ tag bal price held,
      findUser L user_id = some (tag, bal) ∧
      (∃ avail, findStock L (upperString stock_name) = some (price, avail)) ∧
      findHoldingIn L.stock_holdings user_id (upperString stock_name) =
        some held ∧
      quantity ≤ held ∧
      L' = ⟨updateBalance L.users user_id (bal + price * (quantity : ℚ)),
            (if held - quantity = 0 then
               deleteHolding L.stock_holdings user_id (upperString stock_name)
             else
               updateHolding L.stock_holdings user_id (upperString stock_name)
                 (held - quantity)),
            addStockAvail L.stocks (upperString stock_name) quantity⟩ := by
  simp only [sell_stock] at h
  cases hu : findUser L user_id with
  | none => rw [hu] at h; simp at h
  | some tb =>
    obtain ⟨tag, bal⟩ := tb
    rw [hu] at h
    simp only [Option.isNone_some, Bool.false_eq_true, if_false] at h
    cases hst : findStock L (upperString stock_name) with
    | none => rw [hst] at h; simp at h
    | some pa =>
      obtain ⟨price, avail⟩ := pa
      simp only [hst] at h
      cases hh : findHolding L user_id (upperString stock_name) with
      | none => rw [hh] at h; simp at h
      | some held =>
        simp only [hh] at h
        split_ifs at h with h1 hz
        · exact ⟨tag, bal, price, held, rfl, ⟨avail, rfl⟩, hh, by omega,
            by rw [if_pos hz]; exact (Option.some.inj h).symm⟩
        · exact ⟨tag, bal, price, held, rfl, ⟨avail, rfl⟩, hh, by omega,
            by rw [if_neg hz]; exact (Option.some.inj h).symm⟩

/-- Inversion of a successful `givestocks`. -/
lemma givestocks_inv (L : Ledger) (giver_id : ℕ) (amount : ℤ)
    (stock_name to_gamertag : String) (L' : Ledger)
    (h : givestocks L giver_id amount stock_name to_gamertag = some L') :
    ∃ target_id held,
      findUserByTag L to_gamertag = some target_id ∧
      findHoldingIn L.stock_holdings giver_id stock_name = some held ∧
      0 < amount ∧ amount ≤ held ∧
      L' = { L with stock_holdings :=
        (match findHoldingIn
            (updateHolding L.stock_holdings giver_id stock_name (held - amount))
            target_id stock_name with
         | none =>
           updateHolding L.stock_holdings giver_id stock_name (held - amount) ++
             [(target_id, stock_name, amount)]
         | some tq =>
           updateHolding
             (updateHolding L.stock_holdings giver_id stock_name (held - amount))
             target_id stock_name (tq + amount)) } := by
  simp only [givestocks] at h
  split_ifs at h with h1 h2
  cases ht : findUserByTag L to_gamertag with
  | none => rw [ht] at h; simp at h
  | some target_id =>
    simp only [ht] at h
    cases hh : findHolding L giver_id stock_name with
    | none => rw [hh] at h; simp at h
    | some held =>
      simp only [hh] at h
      split_ifs at h with h3
      refine ⟨target_id, held, rfl, hh, ?_, by omega, (Option.some.inj h).symm⟩
      rcases lt_trichotomy amount 0 with hlt | heq | hgt
      · exact absurd (le_of_lt hlt) h2
      · exact absurd (Or.inl heq) h1
      · exact hgt

/-
### C3
-/

/-- C3 counterexample: when alice gifts her entire CGENER holding (5 shares)
to bob, the committed ledger still stores alice's holding row — with
quantity 0 — instead of deleting it, so the quantity > 0 invariant does
not survive `givestocks`. -/
theorem C3_counterexample :
    givestocks giftLedger 1 5 "CGENER" "bob" = some giftLedgerAfter ∧
    findHolding giftLedgerAfter 1 "CGENER" = some 0 := by
  constructor
  · with_unfolding_all rfl
  · with_unfolding_all rfl

/-- C3 (amended): `buy_stock` and `sell_stock` preserve the invariant that
every stored holding row has quantity > 0 (a sell reaching zero deletes
the row), but `givestocks` does not: a gift that reduces the sender's
holding exactly to zero (with a recipient other than the sender) leaves
the sender's row stored with quantity 0 rather than deleting it. -/
theorem C3_holding_invariant :
    (∀ (L : Ledger) (user_id : ℕ) (quantity : ℤ) (stock_name : String)
        (L' : Ledger),
      (∀ h ∈ L.stock_holdings, 0 < h.2.2) →
      buy_stock L user_id quantity stock_name = some L' →
      ∀ h ∈ L'.stock_holdings, 0 < h.2.2) ∧
    (∀ (L : Ledger) (user_id : ℕ) (quantity : ℤ) (stock_name : String)
        (L' : Ledger),
      (∀ h ∈ L.stock_holdings, 0 < h.2.2) →
      sell_stock L user_id quantity stock_name = some L' →
      ∀ h ∈ L'.stock_holdings, 0 < h.2.2) ∧
    (∀ (L : Ledger) (giver_id : ℕ) (amount : ℤ)
        (stock_name to_gamertag : String) (L' : Ledger),
      givestocks L giver_id amount stock_name to_gamertag = some L' →
      findHolding L giver_id stock_name = some amount →
      findUserByTag L to_gamertag ≠ some giver_id →
      findHolding L' giver_id stock_name = some 0) := by
  refine ⟨?_, ?_, ?_⟩
  · intro L user_id quantity stock_name L' hinv hbuy h' hmem
    obtain ⟨tag, bal, price, avail, hu, hst, hq, -, -, -, hL'⟩ :=
      buy_stock_inv L user_id quantity stock_name L' hbuy
    subst hL'
    simp only at hmem
    cases hh : findHoldingIn L.stock_holdings user_id (upperString stock_name) with
    | some q0 =>
      simp only [hh, updateHolding] at hmem
      obtain ⟨a, ha, rfl⟩ := List.mem_map.mp hmem
      obtain ⟨r, hr, hval⟩ := Option.map_eq_some'.mp hh
      have hr0 := hinv r (List.mem_of_find?_eq_some hr)
      by_cases hk : a.1 == user_id && a.2.1 == upperString stock_name
      · rw [if_pos hk]
        have hq0 : 0 < q0 := hval ▸ hr0
        show (0 : ℤ) < q0 + quantity
        omega
      · rw [if_neg hk]
        exact hinv a ha
    | none =>
      simp only [hh] at hmem
      rcases List.mem_append.mp hmem with hin | hnew
      · exact hinv _ hin
      · have : h' = (user_id, upperString stock_name, quantity) := by
          simpa using hnew
        rw [this]
        exact hq
  · intro L user_id quantity stock_name L' hinv hsell h' hmem
    obtain ⟨tag, bal, price, held, hu, ⟨avail, hst⟩, hh, hle, hL'⟩ :=
      sell_stock_inv L user_id quantity stock_name L' hsell
    subst hL'
    simp only at hmem
    by_cases hz : held - quantity = 0
    · rw [if_pos hz] at hmem
      simp only [deleteHolding] at hmem
      exact hinv _ (List.mem_filter.mp hmem).1
    · rw [if_neg hz] at hmem
      simp only [updateHolding] at hmem
      obtain ⟨a, ha, rfl⟩ := List.mem_map.mp hmem
      by_cases hk : a.1 == user_id && a.2.1 == upperString stock_name
      · rw [if_pos hk]
        show (0 : ℤ) < held - quantity
        omega
      · rw [if_neg hk]
        exact hinv a ha
  · intro L giver_id amount stock_name to_gamertag L' hgift hheld hne
    obtain ⟨target_id, held, ht, hh, hpos, hle, hL'⟩ :=
      givestocks_inv L giver_id amount stock_name to_gamertag L' hgift
    have hfi : findHoldingIn L.stock_holdings giver_id stock_name =
        some amount := by simpa [findHolding] using hheld
    have hha : held = amount := by
      rw [hh] at hfi
      exact Option.some.inj hfi
    have hgne : giver_id ≠ target_id := fun hc => hne (hc ▸ ht)
    subst hL'
    have h0 : findHoldingIn
        (updateHolding L.stock_holdings giver_id stock_name (held - amount))
        giver_id stock_name = some (held - amount) :=
      findHoldingIn_updateHolding _ _ _ _ held hh
    have hz : held - amount = 0 := by omega
    simp only [findHolding]
    cases htg : findHoldingIn
        (updateHolding L.stock_holdings giver_id stock_name (held - amount))
        target_id stock_name with
    | none =>
      simp only [htg]
      rw [findHoldingIn_append_ne _ giver_id target_id stock_name stock_name
        amount hgne, h0, hz]
    | some tq =>
      simp only [htg]
      rw [findHoldingIn_updateHolding_ne _ giver_id target_id stock_name
        stock_name (tq + amount) (fun hc => hgne hc.1), h0, hz]

/-- C3 (amended), instantiated: a concrete buy preserves positivity of a
created holding row, and the concrete full-holding gift of `giftLedger`
leaves the sender's row stored as quantity 0. -/
theorem C3_holding_invariant_witness :
    (0 : ℤ) < ((1, upperString "cgener", (100 : ℤ)) : ℕ × String × ℤ).2.2 ∧
    findHolding giftLedgerAfter 1 "CGENER" = some 0 := by
  constructor
  · exact C3_holding_invariant.1 sampleLedger 1 100 "cgener" sampleLedgerBought
      (by intro h hmem; simp [sampleLedger] at hmem)
      (by with_unfolding_all rfl)
      (1, upperString "cgener", 100) (by with_unfolding_all decide)
  · exact C3_holding_invariant.2.2 giftLedger 1 5 "CGENER" "bob" giftLedgerAfter
      (by with_unfolding_all rfl) (by with_unfolding_all rfl)
      (by with_unfolding_all decide)

/-
### C10
-/

/-- The net-worth fold over holdings whose stocks all exist equals the
starting balance plus the sum of price × quantity. -/
lemma net_worth_foldl (L : Ledger) (hs : List (ℕ × String × ℤ)) (acc : ℚ)
    (hws : ∀ h ∈ hs, (findStock L h.2.1).isSome = true) :
    hs.foldl
      (fun net_worth h =>
        match findStock L h.2.1 with
        | some (stock_price, _) => net_worth + stock_price * (h.2.2 : ℚ)
        | none => net_worth) acc =
    acc + (hs.map fun h =>
      ((findStock L h.2.1).map Prod.fst).getD 0 * (h.2.2 : ℚ)).sum := by
  induction hs generalizing acc with
  | nil => simp
  | cons h t ih =>
    cases hfs : findStock L h.2.1 with
    | none =>
      have := hws h (List.mem_cons_self h t)
      rw [hfs] at this
      simp at this
    | some pa =>
      obtain ⟨p, a⟩ := pa
      simp only [List.foldl_cons, List.map_cons, List.sum_cons, hfs]
      rw [ih (acc + p * (h.2.2 : ℚ))
        (fun x hx => hws x (List.mem_cons_of_mem h hx))]
      simp only [Option.map_some', Option.getD_some]
      ring

/-- C10: for a user present in the users table, `calculate_net_worth`
returns the balance plus Σ quantity × current price over that user's
holdings (so the failure branch never fires), while for an absent user it
raises (modelled as `none`) instead of returning a value. -/
theorem C10_calculate_net_worth (L : Ledger) (user_id : ℕ) :
    (∀ tag bal, findUser L user_id = some (tag, bal) →
      (∀ h ∈ L.stock_holdings, h.1 = user_id →
        (findStock L h.2.1).isSome = true) →
      calculate_net_worth L user_id =
        some (bal + ((L.stock_holdings.filter fun h => h.1 == user_id).map
          fun h => ((findStock L h.2.1).map Prod.fst).getD 0 * (h.2.2 : ℚ)).sum)) ∧
    (findUser L user_id = none → calculate_net_worth L user_id = none) := by
  constructor
  · intro tag bal hu hws
    simp only [calculate_net_worth, hu]
    rw [net_worth_foldl L _ bal]
    intro h hmem
    have hm := List.mem_filter.mp hmem
    exact hws h hm.1 (by simpa using hm.2)
  · intro hu
    simp only [calculate_net_worth, hu]

/-- C10, instantiated: in `giftLedger`, user 1 (balance 100, holding 5
CGENER priced 10) gets a net worth, and the absent user 9 makes
`calculate_net_worth` raise. -/
theorem C10_calculate_net_worth_witness :
    calculate_net_worth giftLedger 1 =
      some (100 + ((giftLedger.stock_holdings.filter fun h => h.1 == 1).map
        fun h => ((findStock giftLedger h.2.1).map Prod.fst).getD 0 *
          (h.2.2 : ℚ)).sum) ∧
    calculate_net_worth giftLedger 9 = none := by
  constructor
  · exact (C10_calculate_net_worth giftLedger 1).1 "alice" 100
      (by with_unfolding_all rfl)
      (by
        intro h hmem hx
        simp only [giftLedger, List.mem_singleton] at hmem
        subst hmem
        with_unfolding_all rfl)
  · exact (C10_calculate_net_worth giftLedger 9).2 (by with_unfolding_all rfl)

/-
### C9
-/

/-- One `initialize_stocks` iteration only ever appends rows whose
`stock_avail` is 10000. -/
lemma initializeStep_avail (existing : List String) (draws : ℕ → ℕ → ℚ)
    (items : List (String × String × ℕ))
    (st : ℕ × List String × List (Option String × ℚ × ℤ))
    (hst : ∀ r ∈ st.2.2, r.2.2 = 10000) :
    ∀ r ∈ (items.foldl (initializeStep existing draws) st).2.2,
      r.2.2 = 10000 := by
  induction items generalizing st with
  | nil => exact hst
  | cons it items ih =>
    obtain ⟨tag, name, count⟩ := it
    obtain ⟨idx, keys, inserted⟩ := st
    rw [List.foldl_cons]
    refine ih _ ?_
    intro r hr
    simp only [initializeStep] at hr
    split_ifs at hr
    · exact hst r hr
    · rcases List.mem_append.mp hr with hin | hnew
      · exact hst r hin
      · have : r = (create_ticker_name tag name keys,
            get_initial_stock_value count (draws idx), 10000) := by
          simpa using hnew
        rw [this]

/-- C9: every stock row created during startup initialization — for a
channel or for an emoji — has available quantity exactly 10000. -/
theorem C9_initialize_stocks_avail (existing channels : List String)
    (channelCounts : String → ℕ) (emojis : List String)
    (emojiCounts : String → ℕ) (draws : ℕ → ℕ → ℚ) :
    ∀ r ∈ initialize_stocks existing channels channelCounts emojis emojiCounts
        draws, r.2.2 = 10000 := by
  intro r hr
  exact initializeStep_avail existing draws _ (0, [], [])
    (by intro x hx; simp at hx) r hr

/-- C9, instantiated: a fresh startup over the single channel `general`
(3 messages, no emoji) creates exactly the row
`(CGENER, 0, 10000)`, whose availability is 10000. -/
theorem C9_initialize_stocks_avail_witness :
    ((some "CGENER", (0 : ℚ), (10000 : ℤ)) : Option String × ℚ × ℤ) ∈
      initialize_stocks [] ["general"] (fun _ => 3) [] (fun _ => 0)
        (fun _ _ => 0) ∧
    ((some "CGENER", (0 : ℚ), (10000 : ℤ)) : Option String × ℚ × ℤ).2.2 =
      10000 := by
  have he : initialize_stocks [] ["general"] (fun _ => 3) [] (fun _ => 0)
      (fun _ _ => 0) = [(some "CGENER", (0 : ℚ), (10000 : ℤ))] := by
    with_unfolding_all rfl
  have hm : ((some "CGENER", (0 : ℚ), (10000 : ℤ)) : Option String × ℚ × ℤ) ∈
      initialize_stocks [] ["general"] (fun _ => 3) [] (fun _ => 0)
        (fun _ _ => 0) := by
    rw [he]
    exact List.mem_singleton.mpr rfl
  exact ⟨hm, C9_initialize_stocks_avail [] ["general"] (fun _ => 3) []
    (fun _ => 0) (fun _ _ => 0) _ hm⟩

/-
### C6
-/

/-- A string shorter than 5 has no 5-element index tuples. -/
lemma tuple5_eq_nil (n : ℕ) (h : n < 5) : tuple5 n = [] := by
  rw [List.eq_nil_iff_forall_not_mem]
  intro t ht
  simp only [tuple5, List.mem_flatMap, List.mem_filterMap, List.mem_range] at ht
  obtain ⟨i, hi, j, hj, k, hk, l, hl, m, hm, hcond⟩ := ht
  split_ifs at hcond with hij
  omega

/-- Phase 1 is vacuous on a short cleaned name. -/
lemma iterate_short (pfx s : String) (allocated : List String)
    (h : s.length < 5) :
    iterate_possible_ticker_names pfx s allocated = none := by
  simp only [iterate_possible_ticker_names, tickerCandidates, tuple5_eq_nil
    s.length h, List.map_nil, List.find?_nil]

/-- `create_ticker_name` on valid input is the first unallocated candidate
of the claim's enumeration (name subsequences first, then the
suffix-extended ones, suffix by suffix). -/
lemma create_ticker_name_eq_enumeration (pfx fullname : String)
    (allocated : List String) (hp : pfx.length = 1) (hn : fullname ≠ "") :
    create_ticker_name pfx fullname allocated =
      (tickerEnumeration pfx fullname).find? fun r => !(allocated.contains r) := by
  have hbad : ¬(pfx = "" ∨ fullname = "" ∨ pfx.length ≠ 1) := by
    push_neg
    refine ⟨?_, hn, by omega⟩
    intro hc
    rw [hc] at hp
    simp at hp
  simp only [create_ticker_name, tickerEnumeration, if_neg hbad]
  by_cases hlen : 5 ≤ (upperString (clean_string fullname)).length
  · rw [if_pos hlen]
    cases hit : iterate_possible_ticker_names pfx
        (upperString (clean_string fullname)) allocated with
    | some r =>
      simp only [iterate_possible_ticker_names] at hit
      rw [List.find?_append, hit]
      rfl
    | none =>
      simp only [iterate_possible_ticker_names] at hit
      rw [List.find?_append, hit, Option.none_or, List.find?_flatMap]
      rfl
  · simp only [if_neg hlen]
    have hnil : tickerCandidates pfx (upperString (clean_string fullname)) =
        [] := by
      simp only [tickerCandidates,
        tuple5_eq_nil (upperString (clean_string fullname)).length (by omega),
        List.map_nil]
    rw [hnil, List.nil_append, List.find?_flatMap]
    rfl

/-- A ticker returned on valid input is never one already allocated. -/
lemma create_ticker_name_not_mem (pfx fullname : String)
    (allocated : List String) (hp : pfx.length = 1) (hn : fullname ≠ "")
    (r : String) (h : create_ticker_name pfx fullname allocated = some r) :
    r ∉ allocated := by
  rw [create_ticker_name_eq_enumeration pfx fullname allocated hp hn] at h
  have := List.find?_some h
  simp_all

/-- C6: on a one-character category tag and a nonempty name, the allocator
returns exactly the first candidate of the claim's enumeration (name
subsequences in index-tuple order, then the `AAAAA..ZZZZZ`-suffixed
extensions) that is not yet allocated; in consequence the result is never
an already-allocated ticker, and two allocations where the first result is
in the second call's allocated set never collide (the allocator itself is a
pure function, so determinism is inherent). -/
theorem C6_create_ticker_name (pfx fullname : String)
    (allocated : List String) (hp : pfx.length = 1) (hn : fullname ≠ "") :
    create_ticker_name pfx fullname allocated =
      ((tickerEnumeration pfx fullname).find? fun r => !(allocated.contains r)) ∧
    (∀ r, create_ticker_name pfx fullname allocated = some r →
      r ∉ allocated) ∧
    (∀ (pfx' fullname' : String) (allocated' : List String) (r r' : String),
      pfx'.length = 1 → fullname' ≠ "" →
      create_ticker_name pfx fullname allocated = some r →
      create_ticker_name pfx' fullname' allocated' = some r' →
      r ∈ allocated' → r' ≠ r) := by
  refine ⟨create_ticker_name_eq_enumeration pfx fullname allocated hp hn,
    fun r => create_ticker_name_not_mem pfx fullname allocated hp hn r, ?_⟩
  intro pfx' fullname' allocated' r r' hp' hn' _ h' hmem hcontra
  exact create_ticker_name_not_mem pfx' fullname' allocated' hp' hn' r' h'
    (hcontra ▸ hmem)

/-- C6, instantiated: allocating for channel `general` with `CGENER`
already taken yields `CGENEA`, the next candidate in enumeration order,
which is not in the allocated set. -/
theorem C6_create_ticker_name_witness : "CGENEA" ∉ ["CGENER"] :=
  (C6_create_ticker_name "C" "general" ["CGENER"] rfl (by decide)).2.1
    "CGENEA" (by with_unfolding_all rfl)
